import Mathlib

/-!
Verification of the emtail driver (`emtail.go`) against its specification.

The file shallowly embeds the driver's functions: the program-loading loop of
`main`, `OneShot`, `console.Write`, and the one-shot branch of `main`.  The
compiler, virtual machine, engine and metric store are not part of the given
source file; where a claim depends on them they are modelled from the
specification, and each such definition is marked `Modelled from the spec:`.

Strings are modelled as `List Char`; byte slices as `List Nat`
(each element a byte value).
-/

set_option maxRecDepth 4000

namespace Emtail

/-! ## filepath.Ext and the directory listing -/

/-- Scan of `filepath.Ext`: walks the reversed file name (i.e. the original
name from its last character backwards), stopping at a path separator,
and returns the suffix of the original name that starts at the last dot.
`acc` holds the characters of the original name situated after the current
position. -/
def extScan : List Char → List Char → List Char
  | [], _ => []
  | c :: rest, acc =>
    if c = '/' then []
    else if c = '.' then c :: acc
    else extScan rest (c :: acc)

/-- Go `filepath.Ext`: the suffix beginning at the final dot in the final
path element; empty when there is no dot. -/
def filepathExt (name : List Char) : List Char :=
  extScan name.reverse []

/-- A directory entry as returned by `ioutil.ReadDir`: its name and whether
it is a directory. -/
structure FileInfo where
  name : List Char
  isDir : Bool
deriving DecidableEq, Repr

/-- The environment of one directory entry during the program-loading loop
of `main`: the entry itself, whether `os.Open` on it succeeds, and the
error list returned by `Compile` (`[]` plays the role of Go's `nil`). -/
structure ProgFile where
  fi : FileInfo
  openOk : Bool
  compileErrs : List (List Char)
deriving DecidableEq, Repr

/-- What the loading loop of `main` does with one directory entry. -/
inductive LoadAction where
  | skipped
  | openFailed
  | compileFailed (errs : List (List Char))
  | loaded
deriving DecidableEq, Repr

/-- The per-entry behaviour of the loading loop in `main`
(`emtail.go` lines 109-153): directories are skipped, entries whose
extension is not `.em` are skipped, an entry that fails to open is logged
and skipped, an entry with compile errors sets the error flag and is not
registered, and otherwise the program is registered with the engine. -/
def processEntry (f : ProgFile) : LoadAction :=
  if f.fi.isDir then .skipped
  else if filepathExt f.fi.name ≠ ['.', 'e', 'm'] then .skipped
  else if f.openOk = false then .openFailed
  else if f.compileErrs ≠ [] then .compileFailed f.compileErrs
  else .loaded

/-- The loading loop of `main`: folds over the directory listing,
maintaining the `errors` exit flag (set to 1 on any compile failure) and
the ordered list of programs registered with the engine via `e.addVm`
(identified by source-file name). -/
def loadPrograms (fs : List ProgFile) : Nat × List (List Char) :=
  fs.foldl
    (fun st f =>
      match processEntry f with
      | .compileFailed _ => (1, st.2)
      | .loaded => (st.1, st.2 ++ [f.fi.name])
      | _ => st)
    (0, [])

/-- The contribution of a single directory entry to the engine's program
list: `some` of its name exactly when the loop registers it. -/
def loadedName (f : ProgFile) : Option (List Char) :=
  if processEntry f = .loaded then some f.fi.name else none

/-- Whether an entry reaches `Compile` and fails there. -/
def compileFailedB (f : ProgFile) : Bool :=
  match processEntry f with
  | .compileFailed _ => true
  | _ => false

/-! ## The control flow of `main` -/

/-- The command-line flags read by `main`. -/
structure Flags where
  progs : List Char
  logs : List Char
  one_shot : Bool
  dump_bytecode : Bool
  compile_only : Bool
deriving DecidableEq, Repr

/-- Go `strings.Split` on a comma separator. -/
def splitComma : List Char → List (List Char)
  | [] => [[]]
  | c :: rest =>
    match splitComma rest with
    | [] => [[]]
    | h :: t => if c = ',' then [] :: h :: t else (c :: h) :: t

/-- The terminal shapes `main` can reach before (or instead of) running
the engine: a `log.Fatal*` call, `os.Exit(errors)` under `-compile_only`
or `-dump_bytecode`, the one-shot branch, or the streaming (tailing)
branch.  The last two record the list of programs registered with the
engine. -/
inductive Outcome where
  | fatalNoProgFlag
  | fatalNoLogFlag
  | fatalListProgs
  | exited (code : Nat)
  | fatalNoLogsToTail
  | oneShotMode (progs : List (List Char))
  | tailing (progs : List (List Char))
deriving DecidableEq, Repr

/-- The control flow of `main` (`emtail.go` lines 92-198) up to the branch
that runs the engine.  `dirListing` is `none` when `ioutil.ReadDir` on the
program directory fails. -/
def mainModel (fl : Flags) (dirListing : Option (List ProgFile)) : Outcome :=
  if fl.progs = [] then .fatalNoProgFlag
  else if fl.logs = [] then .fatalNoLogFlag
  else
    match dirListing with
    | none => .fatalListProgs
    | some fs =>
      let st := loadPrograms fs
      if fl.compile_only ∨ fl.dump_bytecode then .exited st.1
      else
        let pathnames := (splitComma fl.logs).filter (fun p => p ≠ [])
        if pathnames = [] then .fatalNoLogsToTail
        else if fl.one_shot then .oneShotMode st.2
        else .tailing st.2

/-! ## OneShot -/

/-- One step of `bufio.Reader.ReadString` with delimiter newline on the
remaining file content: `some (l, rest)` when a newline is present, where
`l` is the prefix up to and including the first newline; `none` when the
content holds no newline, in which case Go returns the partial data
together with a non-nil error (`io.EOF` at a clean end of file). -/
def splitFirstLine : List Char → Option (List Char × List Char)
  | [] => none
  | c :: rest =>
    if c = '\n' then some ([c], rest)
    else
      match splitFirstLine rest with
      | some (l, r) => some (c :: l, r)
      | none => none

/-- The two ways `OneShot` can return an error: `os.Open` failing, or a
non-`io.EOF` read error from the buffered reader. -/
inductive OneShotErr where
  | openFail
  | readFail
deriving DecidableEq, Repr

/-- A configured log file as `OneShot` sees it: whether `os.Open`
succeeds, the content successfully readable from it, and whether, once
that content is exhausted, the next read reports an error instead of a
clean `io.EOF`. -/
structure LogFile where
  openOk : Bool
  content : List Char
  readFails : Bool
deriving DecidableEq, Repr

/-- The read loop of `OneShot` (`emtail.go` lines 42-52), with fuel for
structural recursion (`content.length + 1` always suffices since each sent
line consumes at least its newline character).  Returns the lines sent on
the channel, in order, and the error result of `OneShot`: on `io.EOF` the
loop returns `nil` (dropping any partial data Go returned alongside
`io.EOF`); on a read error it returns that error; each complete line is
sent exactly as read, delimiter included. -/
def readLoop : Nat → List Char → Option OneShotErr → List (List Char) × Option OneShotErr
  | 0, _, e => ([], e)
  | fuel + 1, content, e =>
    match splitFirstLine content with
    | some (l, rest) =>
      let s := readLoop fuel rest e
      (l :: s.1, s.2)
    | none => ([], e)

/-- `OneShot` (`emtail.go` lines 33-54): the lines it sends on the `lines`
channel and its returned error. -/
def oneShot (f : LogFile) : List (List Char) × Option OneShotErr :=
  if f.openOk then
    readLoop (f.content.length + 1) f.content
      (if f.readFails then some .readFail else none)
  else ([], some .openFail)

/-- The one-shot loop of `main` (`emtail.go` lines 172-178): runs
`OneShot` on each pathname in order; the first non-nil error is passed to
`log.Fatalf`, which terminates the invocation with a non-zero exit
status.  Returns `none` when every file succeeds. -/
def oneShotMain : List LogFile → Option OneShotErr
  | [] => none
  | f :: rest =>
    match (oneShot f).2 with
    | some e => some e
    | none => oneShotMain rest

/-! ## console.Write -/

/-- Go `utf8.DecodeRune` on a byte slice (bytes as `Nat`): returns the
first rune and its width in bytes.  Invalid, overlong, surrogate or
truncated encodings yield `(0xFFFD, 1)`; the empty slice yields
`(0xFFFD, 0)`. -/
def decodeRune : List Nat → Nat × Nat
  | [] => (0xFFFD, 0)
  | b0 :: rest =>
    if b0 < 0x80 then (b0, 1)
    else if 0xC2 ≤ b0 ∧ b0 ≤ 0xDF then
      match rest with
      | b1 :: _ =>
        if 0x80 ≤ b1 ∧ b1 ≤ 0xBF then ((b0 - 0xC0) * 64 + (b1 - 0x80), 2)
        else (0xFFFD, 1)
      | [] => (0xFFFD, 1)
    else if 0xE0 ≤ b0 ∧ b0 ≤ 0xEF then
      match rest with
      | b1 :: b2 :: _ =>
        if (if b0 = 0xE0 then 0xA0 else 0x80) ≤ b1 ∧
            b1 ≤ (if b0 = 0xED then 0x9F else 0xBF) ∧
            0x80 ≤ b2 ∧ b2 ≤ 0xBF then
          ((b0 - 0xE0) * 4096 + (b1 - 0x80) * 64 + (b2 - 0x80), 3)
        else (0xFFFD, 1)
      | _ => (0xFFFD, 1)
    else if 0xF0 ≤ b0 ∧ b0 ≤ 0xF4 then
      match rest with
      | b1 :: b2 :: b3 :: _ =>
        if (if b0 = 0xF0 then 0x90 else 0x80) ≤ b1 ∧
            b1 ≤ (if b0 = 0xF4 then 0x8F else 0xBF) ∧
            0x80 ≤ b2 ∧ b2 ≤ 0xBF ∧ 0x80 ≤ b3 ∧ b3 ≤ 0xBF then
          ((b0 - 0xF0) * 262144 + (b1 - 0x80) * 4096 + (b2 - 0x80) * 64
            + (b3 - 0x80), 4)
        else (0xFFFD, 1)
      | _ => (0xFFFD, 1)
    else (0xFFFD, 1)

/-- The decoding loop of `console.Write` (`emtail.go` lines 72-77): walk
the byte slice, decoding one rune at a time and advancing by the decoded
width; the resulting Go string is the list of decoded runes.  Fuel-based
(`p.length` suffices since every decoded width on a non-empty slice is at
least 1). -/
def decodeRunesAux : Nat → List Nat → List Nat
  | 0, _ => []
  | _, [] => []
  | fuel + 1, b :: rest =>
    let d := decodeRune (b :: rest)
    d.1 :: decodeRunesAux fuel ((b :: rest).drop d.2)

/-- The Go string built by `console.Write` from the byte slice `p`, as its
list of runes. -/
def decodeRunes (p : List Nat) : List Nat :=
  decodeRunesAux p.length p

/-- The UTF-8 encoded width in bytes of one rune, as produced by Go's
`string(r)` conversion for the runes `DecodeRune` can return (all of which
are valid, so no `RuneError` substitution arises here). -/
def utf8Len (r : Nat) : Nat :=
  if r < 0x80 then 1
  else if r < 0x800 then 2
  else if r < 0x10000 then 3
  else 4

/-- Go `len(s)` for a string given as its list of runes: the total number
of UTF-8 bytes. -/
def goStrLen (s : List Nat) : Nat :=
  (s.map utf8Len).sum

/-- The `console` receiver: its accumulated lines, each a Go string given
as a list of runes. -/
structure Console where
  lines : List (List Nat)
deriving DecidableEq, Repr

/-- `console.Write` (`emtail.go` lines 71-80): decodes the byte slice rune
by rune into a string, appends that string to the console's line list, and
returns `(len(s), nil)`; the error is always `nil`, modelled as `none`. -/
def consoleWrite (c : Console) (p : List Nat) : Console × Nat × Option Unit :=
  (⟨c.lines ++ [decodeRunes p]⟩, goStrLen (decodeRunes p), none)

/-- The byte sequences Go's `utf8` package considers valid: a
concatenation of single-rune encodings, with the exact first-byte and
continuation-byte ranges `DecodeRune` accepts (no overlong forms, no
surrogates, nothing above `U+10FFFF`). -/
inductive ValidUTF8 : List Nat → Prop where
  | nil : ValidUTF8 []
  | one {b rest} : b < 0x80 → ValidUTF8 rest → ValidUTF8 (b :: rest)
  | two {b0 b1 rest} : 0xC2 ≤ b0 → b0 ≤ 0xDF → 0x80 ≤ b1 → b1 ≤ 0xBF →
      ValidUTF8 rest → ValidUTF8 (b0 :: b1 :: rest)
  | three {b0 b1 b2 rest} : 0xE0 ≤ b0 → b0 ≤ 0xEF →
      (if b0 = 0xE0 then 0xA0 else 0x80) ≤ b1 →
      b1 ≤ (if b0 = 0xED then 0x9F else 0xBF) →
      0x80 ≤ b2 → b2 ≤ 0xBF →
      ValidUTF8 rest → ValidUTF8 (b0 :: b1 :: b2 :: rest)
  | four {b0 b1 b2 b3 rest} : 0xF0 ≤ b0 → b0 ≤ 0xF4 →
      (if b0 = 0xF0 then 0x90 else 0x80) ≤ b1 →
      b1 ≤ (if b0 = 0xF4 then 0x8F else 0xBF) →
      0x80 ≤ b2 → b2 ≤ 0xBF → 0x80 ≤ b3 → b3 ≤ 0xBF →
      ValidUTF8 rest → ValidUTF8 (b0 :: b1 :: b2 :: b3 :: rest)

/-! ## Spec-modelled compiler output, virtual machine and engine

The compiler, VM and engine sources are not part of the given file; the
definitions below are modelled from the specification (sections 3, 4.1,
4.2, 4.3). -/

/-- Modelled from the spec: the bytecode instruction forms (section 3)
needed by a single-counter, single-clause program — a match instruction
carrying a regex-table index and a jump target taken on match failure, a
push-literal, an increment of a no-label counter metric by the default
delta 1, and return. -/
inductive Instr where
  | matchRe (reIdx : Nat) (failTarget : Nat)
  | pushLit (v : Int)
  | inc (metricIdx : Nat)
  | ret
deriving DecidableEq, Repr

/-- Modelled from the spec: the transient per-line execution context
(section 3) — an instruction pointer and a value stack — together with the
metric values the VM mutates (indexed by resolved metric index; the store
persists across lines). -/
structure VMState where
  pc : Nat
  stack : List Int
  metrics : List Int
deriving DecidableEq, Repr

/-- Modelled from the spec: the fetch-decode-execute loop of the VM
(section 4.2) run against one line, with fuel (one more than the program
length always suffices for a program whose jumps only go forward).
Compiled regexes are abstracted as predicates on the line.  Execution ends
when the instruction pointer leaves the program or a return executes. -/
def exec (fuel : Nat) (prog : List Instr) (res : List (List Char → Bool))
    (line : List Char) (st : VMState) : VMState :=
  match fuel with
  | 0 => st
  | fuel + 1 =>
    match prog[st.pc]? with
    | none => st
    | some i =>
      match i with
      | .matchRe r t =>
        if (res.getD r (fun _ => false)) line then
          exec fuel prog res line { st with pc := st.pc + 1 }
        else
          exec fuel prog res line { st with pc := t }
      | .pushLit v =>
        exec fuel prog res line { st with pc := st.pc + 1, stack := v :: st.stack }
      | .inc m =>
        exec fuel prog res line
          { st with pc := st.pc + 1, metrics := st.metrics.set m (st.metrics.getD m 0 + 1) }
      | .ret => st

/-- Modelled from the spec (section 4.1 code generation): the bytecode
compiled from a source with one no-label counter declaration and one
pattern clause — a match instruction that jumps past the end on failure,
one increment of metric 0 with the default delta 1, and the implicit
return. -/
def singleCounterProg : List Instr :=
  [.matchRe 0 3, .inc 0, .ret]

/-- Modelled from the spec (section 4.3): the engine's run loop in
one-shot order — each line in turn is executed by the VM holding `prog`,
against the persisting metric store, with a fresh transient context. -/
def engineRun (prog : List Instr) (res : List (List Char → Bool))
    (ls : List (List Char)) (store : List Int) : List Int :=
  ls.foldl (fun s line => (exec (prog.length + 1) prog res line ⟨0, [], s⟩).metrics) store

/-! ## Spec-modelled metric store -/

/-- Modelled from the spec: the Kind of a metric (section 3), fixed at
declaration. -/
inductive Kind where
  | counter
  | gauge
deriving DecidableEq, Repr

/-- Modelled from the spec: one metric — a Kind and a mapping from label
tuples to the current value. -/
structure Metric where
  kind : Kind
  value : List (List Char) → Int

/-- Modelled from the spec (section 4.2): increment-metric adds the delta
to the addressed tuple's counter value; it is a runtime error for the
result to represent a decrease on a counter, in which case the store is
unchanged and the error is reported. -/
def incMetric (m : Metric) (t : List (List Char)) (delta : Int) : Option Metric :=
  if m.kind = .counter ∧ delta < 0 then none
  else some { m with value := fun u => if u = t then m.value t + delta else m.value u }

/-- Modelled from the spec (section 4.2): set-gauge replaces the stored
value of a gauge for one tuple; a metric's Kind never changes, so a set on
a counter is a runtime error leaving the store unchanged. -/
def setGauge (m : Metric) (t : List (List Char)) (v : Int) : Option Metric :=
  if m.kind = .gauge then
    some { m with value := fun u => if u = t then v else m.value u }
  else none

/-- Modelled from the spec: the metric mutations a VM execution can issue
against one metric. -/
inductive MetricOp where
  | inc (t : List (List Char)) (delta : Int)
  | set (t : List (List Char)) (v : Int)

/-- Modelled from the spec: apply one mutation; a runtime error abandons
the operation (the line is abandoned for that program) and leaves the
metric unchanged. -/
def applyOp (m : Metric) (o : MetricOp) : Metric :=
  match o with
  | .inc t d => (incMetric m t d).getD m
  | .set t v => (setGauge m t v).getD m

/-- Modelled from the spec: a serialization of the mutations issued over
the process lifetime.  The spec makes every mutation atomic, so any
interleaving of concurrent writers is observationally one such
sequence. -/
def applyOps (m : Metric) (os : List MetricOp) : Metric :=
  os.foldl applyOp m

/-! ## The one-shot snapshot and the engine goroutine

`main` runs the engine in a separate goroutine (`go e.run(lines)`,
`emtail.go` line 170) and, in one-shot mode, marshals the metrics to JSON
immediately after the `OneShot` calls return.  The channel is unbuffered,
so a send completes exactly when the engine receives the line; processing
of a received line happens after the receive (engine behaviour modelled
from the spec, sections 4.3 and 5).  The interleaving of the main
goroutine and the engine goroutine is modelled as a step relation. -/

/-- The joint state of `main`'s one-shot branch and the engine goroutine:
the lines not yet sent, the line received by the engine but not yet
processed (the unbuffered channel rendezvous), the lines fully processed
(whose metric side effects the store reflects), and the emitted snapshot
(`none` until `json.MarshalIndent` runs, then the processed list at that
moment). -/
structure OneShotSys where
  pending : List (List Char)
  inFlight : Option (List Char)
  processed : List (List Char)
  snapshot : Option (List (List Char))
deriving DecidableEq, Repr

/-- The atomic steps of the one-shot system: a rendezvous send (completes
only when the engine receives), the engine processing its received line
(modelled from the spec), and `main` emitting the snapshot — which the
code performs as soon as every send has returned, whether or not the
engine has finished processing. -/
inductive OneShotStep : OneShotSys → OneShotSys → Prop where
  | send {l rest proc} :
      OneShotStep ⟨l :: rest, none, proc, none⟩ ⟨rest, some l, proc, none⟩
  | process {pend l proc snap} :
      OneShotStep ⟨pend, some l, proc, snap⟩ ⟨pend, none, proc ++ [l], snap⟩
  | emitSnapshot {fl proc} :
      OneShotStep ⟨[], fl, proc, none⟩ ⟨[], fl, proc, some proc⟩

/-- The initial one-shot state: all lines of all configured files still to
send, nothing in flight, nothing processed, no snapshot. -/
def oneShotInit (ls : List (List Char)) : OneShotSys :=
  ⟨ls, none, [], none⟩

/-! ## Lemmas about the loading loop -/

theorem loadPrograms_foldl (fs : List ProgFile) (e : Nat) (acc : List (List Char)) :
    fs.foldl
      (fun st f =>
        match processEntry f with
        | .compileFailed _ => (1, st.2)
        | .loaded => (st.1, st.2 ++ [f.fi.name])
        | _ => st)
      (e, acc)
    = (if fs.any compileFailedB then 1 else e, acc ++ fs.filterMap loadedName) := by
  induction fs generalizing e acc with
  | nil => simp
  | cons f rest ih =>
    simp only [List.foldl_cons, List.any_cons, List.filterMap_cons]
    cases h : processEntry f with
    | compileFailed errs => simp [compileFailedB, loadedName, h, ih]
    | loaded => simp [compileFailedB, loadedName, h, ih]
    | skipped => simp [compileFailedB, loadedName, h, ih]
    | openFailed => simp [compileFailedB, loadedName, h, ih]

theorem loadPrograms_eq (fs : List ProgFile) :
    loadPrograms fs
    = (if fs.any compileFailedB then 1 else 0, fs.filterMap loadedName) := by
  have h := loadPrograms_foldl fs 0 []
  simpa [loadPrograms] using h

theorem processEntry_loaded_iff (f : ProgFile) :
    processEntry f = .loaded
    ↔ f.fi.isDir = false ∧ filepathExt f.fi.name = ['.', 'e', 'm']
        ∧ f.openOk = true ∧ f.compileErrs = [] := by
  unfold processEntry
  split_ifs <;> simp_all

/-- Claim C3: compilation is all-or-nothing per file.  The list of
programs registered with the engine is the pointwise `filterMap` of the
per-entry outcomes — each entry's contribution depends on that entry
alone, so an error in one file never prevents loading of the remaining
files — and an entry whose compilation returns errors contributes no
program at all. -/
theorem loader_all_or_nothing (fs : List ProgFile) :
    (loadPrograms fs).2 = fs.filterMap loadedName
    ∧ ∀ f : ProgFile, f.compileErrs ≠ [] → loadedName f = none := by
  constructor
  · rw [loadPrograms_eq]
  · intro f hne
    unfold loadedName
    rw [if_neg]
    rw [processEntry_loaded_iff]
    intro hc
    exact hne hc.2.2.2

theorem loader_all_or_nothing_witness :
    loadedName ⟨⟨['b', '.', 'e', 'm'], false⟩, true, [['e']]⟩ = none :=
  (loader_all_or_nothing []).2 ⟨⟨['b', '.', 'e', 'm'], false⟩, true, [['e']]⟩ (by decide)

/-- Claim C9: the loading loop skips exactly the directory entries that
are directories or whose name's extension (per `filepath.Ext`) is not
`.em`; a skipped entry is neither opened, compiled, nor reported as an
error, while every other entry is opened (and, when that succeeds,
compiled). -/
theorem loader_selects_em_files (f : ProgFile) :
    (processEntry f = .skipped
      ↔ f.fi.isDir = true ∨ filepathExt f.fi.name ≠ ['.', 'e', 'm']) := by
  unfold processEntry
  split_ifs <;> simp_all

/-- Claim C8: with `-compile_only` or `-dump_bytecode` set (and both flag
checks passed), `main` calls `os.Exit(errors)` right after the loading
loop — before any log tailing — where `errors` is 1 exactly when some
program file reached `Compile` and failed, and 0 when every compiled file
succeeded. -/
theorem compile_only_exit_status (fl : Flags) (fs : List ProgFile)
    (h1 : fl.progs ≠ []) (h2 : fl.logs ≠ [])
    (h3 : fl.compile_only = true ∨ fl.dump_bytecode = true) :
    mainModel fl (some fs) = .exited (if fs.any compileFailedB then 1 else 0) := by
  unfold mainModel
  rw [if_neg h1, if_neg h2]
  have h3p : (fl.compile_only ∨ fl.dump_bytecode : Prop) := by
    rcases h3 with h | h <;> simp [h]
  dsimp only
  rw [if_pos h3p, loadPrograms_eq]

theorem compile_only_exit_status_witness :
    mainModel ⟨['p'], ['l'], false, true, false⟩
      (some [⟨⟨['b', '.', 'e', 'm'], false⟩, true, [['e']]⟩])
    = .exited 1 := by
  have h := compile_only_exit_status ⟨['p'], ['l'], false, true, false⟩
    [⟨⟨['b', '.', 'e', 'm'], false⟩, true, [['e']]⟩]
    (by decide) (by decide) (Or.inr rfl)
  simpa using h

/-- Claim C7, counterexample: with a program directory containing one
`.em` file that fails to compile (so zero programs compile successfully)
and a non-empty log list, `main` does not treat the situation as fatal —
it proceeds to the tailing branch with an empty program set. -/
theorem zero_programs_fatal_cex :
    mainModel ⟨['p'], ['l'], false, false, false⟩
      (some [⟨⟨['b', '.', 'e', 'm'], false⟩, true, [['e']]⟩])
    = .tailing [] := by decide

/-- Claim C7 as amended: zero successfully compiled program files is not
fatal.  Whenever the flag checks pass, neither `-compile_only` nor
`-dump_bytecode` nor `-one_shot` is set, and at least one non-empty log
pathname is configured, `main` reaches the tailing branch with whatever
programs loaded — in particular with an empty program set when none
compiled.  The only startup conditions `main` treats as fatal are a
missing `-progs` or `-logs` flag, an unreadable program directory, and an
empty log pathname list. -/
theorem zero_programs_proceeds_to_tail (fl : Flags) (fs : List ProgFile)
    (h1 : fl.progs ≠ []) (h2 : fl.logs ≠ [])
    (h3 : fl.compile_only = false) (h4 : fl.dump_bytecode = false)
    (h5 : fl.one_shot = false)
    (h6 : (splitComma fl.logs).filter (fun p => p ≠ []) ≠ []) :
    mainModel fl (some fs) = .tailing (fs.filterMap loadedName) := by
  unfold mainModel
  rw [if_neg h1, if_neg h2]
  dsimp only
  rw [if_neg (by simp [h3, h4]), if_neg h6, if_neg (by simp [h5]), loadPrograms_eq]

theorem zero_programs_proceeds_to_tail_witness :
    mainModel ⟨['p'], ['l'], false, false, false⟩
      (some [⟨⟨['b', '.', 'e', 'm'], false⟩, true, [['e']]⟩])
    = .tailing ([⟨⟨['b', '.', 'e', 'm'], false⟩, true, [['e']]⟩].filterMap loadedName) :=
  zero_programs_proceeds_to_tail ⟨['p'], ['l'], false, false, false⟩
    [⟨⟨['b', '.', 'e', 'm'], false⟩, true, [['e']]⟩]
    (by decide) (by decide) rfl rfl rfl (by decide)

/-! ## Lemmas about OneShot -/

theorem readLoop_err (fuel : Nat) (content : List Char) (e : Option OneShotErr) :
    (readLoop fuel content e).2 = e := by
  induction fuel generalizing content with
  | zero => rfl
  | succ n ih =>
    unfold readLoop
    cases h : splitFirstLine content with
    | none => rfl
    | some lr => simp [ih]

theorem oneShot_err (f : LogFile) :
    (oneShot f).2
    = if f.openOk then (if f.readFails then some .readFail else none)
      else some .openFail := by
  unfold oneShot
  split_ifs with h <;> simp [readLoop_err, h]

/-- Claim C5: in the one-shot loop of `main`, the first file that fails
to open or read makes the invocation fatal (`log.Fatalf`, non-zero exit):
the loop's result is an error exactly when some configured file fails.
When every configured file opens and reads to `io.EOF` successfully,
`OneShot` returns no error for each file. -/
theorem oneshot_exit_status (files : List LogFile) :
    (oneShotMain files ≠ none
      ↔ ∃ f ∈ files, f.openOk = false ∨ f.readFails = true)
    ∧ ∀ f ∈ files, f.openOk = true → f.readFails = false → (oneShot f).2 = none := by
  constructor
  · induction files with
    | nil => simp [oneShotMain]
    | cons f rest ih =>
      unfold oneShotMain
      cases hf : (oneShot f).2 with
      | some e =>
        rw [oneShot_err] at hf
        simp only [ne_eq, reduceCtorEq, not_false_eq_true, true_iff]
        refine ⟨f, by simp, ?_⟩
        by_cases ho : f.openOk
        · rw [if_pos ho] at hf
          by_cases hr : f.readFails
          · exact Or.inr hr
          · rw [if_neg hr] at hf
            exact absurd hf (by simp)
        · exact Or.inl (by simpa using ho)
      | none =>
        rw [oneShot_err] at hf
        simp only [ih]
        constructor
        · rintro ⟨g, hg, hgbad⟩
          exact ⟨g, by simp [hg], hgbad⟩
        · rintro ⟨g, hg, hgbad⟩
          rcases List.mem_cons.mp hg with hgf | hgr
          · subst hgf
            by_cases ho : g.openOk
            · rw [if_pos ho] at hf
              rcases hgbad with hb | hb
              · exact absurd ho (by simp [hb])
              · rw [if_pos hb] at hf
                exact absurd hf (by simp)
            · rw [if_neg ho] at hf
              exact absurd hf (by simp)
          · exact ⟨g, hgr, hgbad⟩
  · intro f _ ho hr
    rw [oneShot_err, if_pos (by simp [ho]), if_neg (by simp [hr])]

theorem oneshot_exit_status_witness :
    (oneShot ⟨true, ['a', '\n'], false⟩).2 = none :=
  (oneshot_exit_status [⟨true, ['a', '\n'], false⟩]).2
    ⟨true, ['a', '\n'], false⟩ (by simp) rfl rfl

/-- Claim C6, counterexample: `OneShot` on a file whose content is the
single line `"a\n"` sends the string `"a\n"` — the trailing newline is
retained, because `bufio.ReadString` returns the line including its
delimiter and `OneShot` sends it unmodified. -/
theorem oneshot_newline_cex :
    ['a', '\n'] ∈ (oneShot ⟨true, ['a', '\n'], false⟩).1
    ∧ (['a', '\n']).getLast? = some '\n' := by decide

theorem splitFirstLine_last (content l r : List Char)
    (h : splitFirstLine content = some (l, r)) : l.getLast? = some '\n' := by
  induction content generalizing l r with
  | nil => simp [splitFirstLine] at h
  | cons c rest ih =>
    unfold splitFirstLine at h
    by_cases hc : c = '\n'
    · rw [if_pos hc] at h
      cases h
      simp [hc]
    · rw [if_neg hc] at h
      cases hsplit : splitFirstLine rest with
      | none => rw [hsplit] at h; cases h
      | some lr =>
        rw [hsplit] at h
        cases h
        have htail := ih lr.1 lr.2 (by rw [hsplit])
        cases hlr : lr.1 with
        | nil => rw [hlr] at htail; simp at htail
        | cons x xs =>
          rw [hlr] at htail
          rw [List.getLast?_cons_cons]
          exact htail

theorem readLoop_sends_newline (fuel : Nat) (content : List Char)
    (e : Option OneShotErr) (l : List Char)
    (h : l ∈ (readLoop fuel content e).1) : l.getLast? = some '\n' := by
  induction fuel generalizing content with
  | zero => simp [readLoop] at h
  | succ n ih =>
    unfold readLoop at h
    cases hsplit : splitFirstLine content with
    | none => rw [hsplit] at h; simp at h
    | some lr =>
      rw [hsplit] at h
      simp only [List.mem_cons] at h
      rcases h with h | h
      · subst h
        exact splitFirstLine_last content lr.1 lr.2 (by rw [hsplit])
      · exact ih lr.2 h

/-- Claim C6 as amended: every string `OneShot` sends on the lines
channel ends with a trailing newline character — `bufio.ReadString('\n')`
returns each complete line including its delimiter and `OneShot` sends it
unmodified (a final unterminated fragment is never sent, since the loop
returns on `io.EOF` before sending). -/
theorem oneshot_sends_end_in_newline (f : LogFile) (l : List Char)
    (h : l ∈ (oneShot f).1) : l.getLast? = some '\n' := by
  unfold oneShot at h
  split_ifs at h with ho hr
  · exact readLoop_sends_newline _ _ _ _ h
  · exact readLoop_sends_newline _ _ _ _ h
  · exact absurd h (List.not_mem_nil l)

theorem oneshot_sends_end_in_newline_witness :
    (['a', '\n'] : List Char).getLast? = some '\n' :=
  oneshot_sends_end_in_newline ⟨true, ['a', '\n'], false⟩ ['a', '\n'] (by decide)

/-- Claim C4: the code races.  From the initial one-shot state with a
single line to deliver there is an execution of the system — deliver the
line (the rendezvous send of `OneShot` completes), then `main` emits the
snapshot before the engine goroutine processes the delivered line — that
ends with the snapshot emitted over an empty processed set: the snapshot
does not reflect the processing of the delivered line, contrary to the
claim (whose delivery half does hold: the snapshot step can only fire
once `pending` is empty, i.e. after every send has completed). -/
theorem oneshot_snapshot_race :
    Relation.ReflTransGen OneShotStep (oneShotInit [['a']])
      ⟨[], some ['a'], [], some []⟩
    ∧ (OneShotSys.mk [] (some ['a']) [] (some [])).snapshot = some []
    ∧ ['a'] ∉ ([] : List (List Char)) := by
  refine ⟨?_, rfl, List.not_mem_nil _⟩
  have h1 : OneShotStep (oneShotInit [['a']]) ⟨[], some ['a'], [], none⟩ :=
    OneShotStep.send
  have h2 : OneShotStep ⟨[], some ['a'], [], none⟩ ⟨[], some ['a'], [], some []⟩ :=
    OneShotStep.emitSnapshot
  exact Relation.ReflTransGen.head h1 (Relation.ReflTransGen.single h2)

/-! ## Lemmas about the spec-modelled VM -/

theorem exec_single_match (re : List Char → Bool) (line : List Char) (c : Int)
    (h : re line = true) :
    exec (singleCounterProg.length + 1) singleCounterProg [re] line ⟨0, [], [c]⟩
    = ⟨2, [], [c + 1]⟩ := by
  simp [exec, singleCounterProg, h, List.getD]

/-- Claim C1 (spec-modelled compiler, VM and engine): running the program
compiled from a single-counter, no-label, one-clause source over any list
of input lines that each match the pattern leaves the counter's stored
value increased by exactly the number of lines. -/
theorem counter_increments_by_matching_lines (re : List Char → Bool)
    (ls : List (List Char)) (c : Int) (h : ∀ l ∈ ls, re l = true) :
    engineRun singleCounterProg [re] ls [c] = [c + ls.length] := by
  induction ls generalizing c with
  | nil => simp [engineRun]
  | cons l rest ih =>
    have hl : re l = true := h l (by simp)
    have hr : ∀ x ∈ rest, re x = true := fun x hx => h x (by simp [hx])
    have step : engineRun singleCounterProg [re] (l :: rest) [c]
        = engineRun singleCounterProg [re] rest [c + 1] := by
      simp only [engineRun, List.foldl_cons]
      rw [exec_single_match re l c hl]
    rw [step, ih (c + 1) hr]
    simp only [List.length_cons]
    congr 1
    push_cast
    ring

theorem counter_increments_by_matching_lines_witness :
    engineRun singleCounterProg [fun _ => true] [['x']] [0] = [(1 : Int)] := by
  have h := counter_increments_by_matching_lines (fun _ => true) [['x']] 0
    (fun l _ => rfl)
  simpa using h

/-! ## Lemmas about the spec-modelled metric store -/

theorem applyOp_counter_mono (m : Metric) (o : MetricOp)
    (hk : m.kind = .counter) (t : List (List Char)) :
    m.value t ≤ (applyOp m o).value t ∧ (applyOp m o).kind = .counter := by
  cases o with
  | inc u d =>
    rw [show applyOp m (.inc u d) = (incMetric m u d).getD m from rfl]
    unfold incMetric
    by_cases hd : d < 0
    · rw [if_pos ⟨hk, hd⟩]
      exact ⟨le_refl _, hk⟩
    · rw [if_neg (by simp [hd])]
      refine ⟨?_, hk⟩
      simp only [Option.getD_some]
      by_cases ht : t = u
      · subst ht
        simp only [if_pos rfl]
        omega
      · simp [ht]
  | set u v =>
    rw [show applyOp m (.set u v) = (setGauge m u v).getD m from rfl]
    unfold setGauge
    rw [if_neg (by simp [hk])]
    exact ⟨le_refl _, hk⟩

/-- Claim C2 (spec-modelled metric store): every serialization of metric
mutations — the spec makes each mutation atomic, so any interleaving of
concurrent writers is one such sequence — preserves a counter's Kind and
never decreases its value for any label tuple: increments with a
non-negative delta grow the value, a decreasing increment is a runtime
error that leaves the value unchanged, and set-gauge on a counter is a
runtime error that leaves the value unchanged. -/
theorem counter_monotone (m : Metric) (os : List MetricOp)
    (t : List (List Char)) (hk : m.kind = .counter) :
    m.value t ≤ (applyOps m os).value t ∧ (applyOps m os).kind = .counter := by
  induction os generalizing m with
  | nil => exact ⟨le_refl _, hk⟩
  | cons o rest ih =>
    have h := applyOp_counter_mono m o hk t
    have h2 := ih (applyOp m o) h.2
    simp only [applyOps, List.foldl_cons] at h2 ⊢
    exact ⟨le_trans h.1 h2.1, h2.2⟩

theorem counter_monotone_witness :
    (Metric.mk .counter (fun _ => 0)).value []
      ≤ (applyOps (Metric.mk .counter (fun _ => 0))
          [.inc [] 5, .set [] (-3), .inc [] (-2)]).value [] :=
  (counter_monotone (Metric.mk .counter (fun _ => 0))
    [.inc [] 5, .set [] (-3), .inc [] (-2)] [] rfl).1

/-! ## Lemmas about console.Write -/

theorem decodeRune_one {b : Nat} (rest : List Nat) (h : b < 0x80) :
    decodeRune (b :: rest) = (b, 1) := by
  unfold decodeRune
  dsimp only
  rw [if_pos h]

theorem decodeRune_two {b0 b1 : Nat} (rest : List Nat)
    (h0 : 0xC2 ≤ b0) (h1 : b0 ≤ 0xDF) (h2 : 0x80 ≤ b1) (h3 : b1 ≤ 0xBF) :
    decodeRune (b0 :: b1 :: rest) = ((b0 - 0xC0) * 64 + (b1 - 0x80), 2) := by
  unfold decodeRune
  dsimp only
  rw [if_neg (by omega), if_pos ⟨h0, h1⟩, if_pos ⟨h2, h3⟩]

theorem decodeRune_three {b0 b1 b2 : Nat} (rest : List Nat)
    (h0 : 0xE0 ≤ b0) (h1 : b0 ≤ 0xEF)
    (h2 : (if b0 = 0xE0 then 0xA0 else 0x80) ≤ b1)
    (h3 : b1 ≤ (if b0 = 0xED then 0x9F else 0xBF))
    (h4 : 0x80 ≤ b2) (h5 : b2 ≤ 0xBF) :
    decodeRune (b0 :: b1 :: b2 :: rest)
    = ((b0 - 0xE0) * 4096 + (b1 - 0x80) * 64 + (b2 - 0x80), 3) := by
  unfold decodeRune
  dsimp only
  rw [if_neg (by omega), if_neg (by omega), if_pos ⟨h0, h1⟩,
    if_pos ⟨h2, h3, h4, h5⟩]

theorem decodeRune_four {b0 b1 b2 b3 : Nat} (rest : List Nat)
    (h0 : 0xF0 ≤ b0) (h1 : b0 ≤ 0xF4)
    (h2 : (if b0 = 0xF0 then 0x90 else 0x80) ≤ b1)
    (h3 : b1 ≤ (if b0 = 0xF4 then 0x8F else 0xBF))
    (h4 : 0x80 ≤ b2) (h5 : b2 ≤ 0xBF) (h6 : 0x80 ≤ b3) (h7 : b3 ≤ 0xBF) :
    decodeRune (b0 :: b1 :: b2 :: b3 :: rest)
    = ((b0 - 0xF0) * 262144 + (b1 - 0x80) * 4096 + (b2 - 0x80) * 64
        + (b3 - 0x80), 4) := by
  unfold decodeRune
  dsimp only
  rw [if_neg (by omega), if_neg (by omega), if_neg (by omega),
    if_pos ⟨h0, h1⟩, if_pos ⟨h2, h3, h4, h5, h6, h7⟩]

theorem utf8Len_one {b : Nat} (h : b < 0x80) : utf8Len b = 1 := by
  unfold utf8Len
  rw [if_pos h]

theorem utf8Len_two {b0 b1 : Nat}
    (h0 : 0xC2 ≤ b0) (h1 : b0 ≤ 0xDF) (h2 : 0x80 ≤ b1) (h3 : b1 ≤ 0xBF) :
    utf8Len ((b0 - 0xC0) * 64 + (b1 - 0x80)) = 2 := by
  unfold utf8Len
  split_ifs <;> omega

theorem utf8Len_three {b0 b1 b2 : Nat}
    (h0 : 0xE0 ≤ b0) (h1 : b0 ≤ 0xEF)
    (h2 : (if b0 = 0xE0 then 0xA0 else 0x80) ≤ b1)
    (h3 : b1 ≤ (if b0 = 0xED then 0x9F else 0xBF))
    (h4 : 0x80 ≤ b2) (h5 : b2 ≤ 0xBF) :
    utf8Len ((b0 - 0xE0) * 4096 + (b1 - 0x80) * 64 + (b2 - 0x80)) = 3 := by
  unfold utf8Len
  split_ifs at h2 h3 ⊢ <;> omega

theorem utf8Len_four {b0 b1 b2 b3 : Nat}
    (h0 : 0xF0 ≤ b0) (h1 : b0 ≤ 0xF4)
    (h2 : (if b0 = 0xF0 then 0x90 else 0x80) ≤ b1)
    (h3 : b1 ≤ (if b0 = 0xF4 then 0x8F else 0xBF))
    (h4 : 0x80 ≤ b2) (h5 : b2 ≤ 0xBF) (h6 : 0x80 ≤ b3) (h7 : b3 ≤ 0xBF) :
    utf8Len ((b0 - 0xF0) * 262144 + (b1 - 0x80) * 4096 + (b2 - 0x80) * 64
      + (b3 - 0x80)) = 4 := by
  unfold utf8Len
  split_ifs at h2 h3 ⊢ <;> omega

theorem goStrLen_cons (r : Nat) (s : List Nat) :
    goStrLen (r :: s) = utf8Len r + goStrLen s := by
  simp [goStrLen]

theorem goStrLen_decodeRunesAux (p : List Nat) (hv : ValidUTF8 p) :
    ∀ fuel, p.length ≤ fuel → goStrLen (decodeRunesAux fuel p) = p.length := by
  induction hv with
  | nil =>
    intro fuel _
    cases fuel <;> simp [decodeRunesAux, goStrLen]
  | @one b rest hb _ ih =>
    intro fuel hf
    match fuel with
    | fuel + 1 =>
      rw [decodeRunesAux, decodeRune_one rest hb]
      simp only [List.drop_succ_cons, List.drop_zero]
      rw [goStrLen_cons, utf8Len_one hb, ih fuel (by simpa using hf)]
      simp only [List.length_cons]
      omega
  | @two b0 b1 rest h0 h1 h2 h3 _ ih =>
    intro fuel hf
    match fuel with
    | fuel + 1 =>
      rw [decodeRunesAux, decodeRune_two rest h0 h1 h2 h3]
      simp only [List.drop_succ_cons, List.drop_zero]
      rw [goStrLen_cons, utf8Len_two h0 h1 h2 h3,
        ih fuel (by simp only [List.length_cons] at hf ⊢; omega)]
      simp only [List.length_cons]
      omega
  | @three b0 b1 b2 rest h0 h1 h2 h3 h4 h5 _ ih =>
    intro fuel hf
    match fuel with
    | fuel + 1 =>
      rw [decodeRunesAux, decodeRune_three rest h0 h1 h2 h3 h4 h5]
      simp only [List.drop_succ_cons, List.drop_zero]
      rw [goStrLen_cons, utf8Len_three h0 h1 h2 h3 h4 h5,
        ih fuel (by simp only [List.length_cons] at hf ⊢; omega)]
      simp only [List.length_cons]
      omega
  | @four b0 b1 b2 b3 rest h0 h1 h2 h3 h4 h5 h6 h7 _ ih =>
    intro fuel hf
    match fuel with
    | fuel + 1 =>
      rw [decodeRunesAux, decodeRune_four rest h0 h1 h2 h3 h4 h5 h6 h7]
      simp only [List.drop_succ_cons, List.drop_zero]
      rw [goStrLen_cons, utf8Len_four h0 h1 h2 h3 h4 h5 h6 h7,
        ih fuel (by simp only [List.length_cons] at hf ⊢; omega)]
      simp only [List.length_cons]
      omega

/-- Claim C10: `console.Write` appends to the console's line list exactly
one string — the rune-by-rune UTF-8 decoding of its input byte slice —
and returns the byte length of that decoded string with a nil error; and
for every input that is valid UTF-8 the returned count equals the byte
length of the input. -/
theorem console_write_spec (c : Console) (p : List Nat) :
    (consoleWrite c p).1.lines = c.lines ++ [decodeRunes p]
    ∧ (consoleWrite c p).2.1 = goStrLen (decodeRunes p)
    ∧ (consoleWrite c p).2.2 = none
    ∧ (ValidUTF8 p → (consoleWrite c p).2.1 = p.length) := by
  refine ⟨rfl, rfl, rfl, fun hv => ?_⟩
  show goStrLen (decodeRunes p) = p.length
  exact goStrLen_decodeRunesAux p hv p.length (le_refl _)

theorem console_write_spec_witness :
    (consoleWrite ⟨[]⟩ [0x61, 0xC3, 0xA9]).2.1 = 3 := by
  have h := (console_write_spec ⟨[]⟩ [0x61, 0xC3, 0xA9]).2.2.2
    (ValidUTF8.one (by omega)
      (ValidUTF8.two (by omega) (by omega) (by omega) (by omega) ValidUTF8.nil))
  simpa using h

end Emtail
